import Mathlib

/-!
Verification of `downloader.py` (DanCarlinDownloader).

The Python program is shallowly embedded here.  Python strings are
modelled as `List Char` (`Str`); the HTTP session, the filesystem and the
console are modelled as explicit environments and effect traces.  Each
definition mirrors one place in `downloader.py`; line numbers refer to
that file.
-/

namespace DC

/-- Python strings are modelled as lists of characters. -/
abbrev Str := List Char

/-! ## Python string primitives -/

/-- Python `sep in s` (substring test), for a string `sep`. -/
def containsSeq (sep : Str) : Str → Bool
  | [] => sep.isEmpty
  | c :: r => sep.isPrefixOf (c :: r) || containsSeq sep r

/-- Fuel-indexed worker for `pySplit`.  Scans left to right; on a match of
`sep` it closes the current chunk and continues after the separator,
exactly as Python `str.split` does.  The fuel is always at least the
length of the string, so the `0, s` arm is never reached there. -/
def pySplitAux (sep : Str) : Nat → Str → List Str
  | _, [] => [[]]
  | 0, s => [s]
  | fuel + 1, c :: r =>
    if sep.isPrefixOf (c :: r) then
      [] :: pySplitAux sep fuel ((c :: r).drop sep.length)
    else
      let rest := pySplitAux sep fuel r
      (c :: rest.headD []) :: rest.tail

/-- Python `s.split(sep)` for a nonempty separator (the program only ever
splits on `"filename="`, `"download_file="` and `"&"`; Python raises on an
empty separator, which therefore never occurs). -/
def pySplit (sep s : Str) : List Str :=
  if sep = [] then [s] else pySplitAux sep s.length s

/-- Python `s.strip(c)` for a one-character strip set: remove every
leading and trailing occurrence of `c`. -/
def pyStripChar (c : Char) (s : Str) : Str :=
  ((s.dropWhile (fun x => x == c)).reverse.dropWhile (fun x => x == c)).reverse

/-- Python `s.strip()`: remove leading and trailing whitespace. -/
def pyStripWS (s : Str) : Str :=
  ((s.dropWhile Char.isWhitespace).reverse.dropWhile Char.isWhitespace).reverse

/-- The double-quote character. -/
def quoteChar : Char := Char.ofNat 34

/-- The single-quote character. -/
def apostChar : Char := Char.ofNat 39

/-! ## Fixed strings of the program -/

def fnToken : Str := "filename=".toList

def dlToken : Str := "download_file=".toList

def downloadWord : Str := "download".toList

def mp3Ext : Str := ".mp3".toList

def danEpisodeLit : Str := "dan_carlin_episode_".toList

def schemeSepLit : Str := "://".toList

def myAccountLit : Str := "my-account".toList

def outputDirLit : Str := "dan_carlin_episodes".toList

/-- `https://www.dancarlin.com/my-account/downloads/` (line 15). -/
def downloadsUrlLit : Str := "https://www.dancarlin.com/my-account/downloads/".toList

/-! ## URL and path helpers -/

/-- Drop everything up to and including the first occurrence of `sep`;
the whole string is dropped when `sep` does not occur. -/
def dropThroughFirst (sep : Str) : Str → Str
  | [] => []
  | c :: r =>
    if sep.isPrefixOf (c :: r) then (c :: r).drop sep.length
    else dropThroughFirst sep r

/-- `urlparse(u).path` for the URL shapes this program handles: for an
absolute URL the authority runs from `"://"` to the first `/`, `?` or
`#`, and the path runs from there to the first `?` or `#`; a
scheme-less string is all path up to the first `?` or `#`. -/
def urlparsePath (u : Str) : Str :=
  if containsSeq schemeSepLit u then
    ((dropThroughFirst schemeSepLit u).dropWhile
        (fun c => c != '/' && c != '?' && c != '#')).takeWhile
      (fun c => c != '?' && c != '#')
  else
    u.takeWhile (fun c => c != '?' && c != '#')

/-- `os.path.basename(p)` for POSIX paths: everything after the final
slash. -/
def basename (p : Str) : Str :=
  (p.reverse.takeWhile (fun c => c != '/')).reverse

/-- `os.path.join(d, f)` for the shapes used here: a nonempty directory
name without a trailing slash joined to a relative filename (the output
directory is the constant `dan_carlin_episodes`). -/
def pathJoin (d f : Str) : Str := d ++ '/' :: f

/-! ## Filename resolution (`download_episode`, lines 112-135) -/

/-- Characters kept by the sanitizer (line 133):
`c.isalnum() or c in (' ', '-', '_', '.')`.  `isalnum` is modelled for
the ASCII alphanumerics. -/
def keepChar (c : Char) : Bool :=
  c.isAlphanum || c == ' ' || c == '-' || c == '_' || c == '.'

/-- Line 133: `"".join(c for c in filename if c.isalnum() or c in (' ', '-', '_', '.'))`. -/
def sanitize (s : Str) : Str := s.filter keepChar

/-- Lines 134-135: `if not filename.endswith('.mp3'): filename += '.mp3'`. -/
def ensureMp3 (s : Str) : Str :=
  if mp3Ext.isSuffixOf s then s else s ++ mp3Ext

/-- Lines 113-117: the filename taken from the `content-disposition`
header, when the header is present and carries a `filename=` token:
`content_disp.split('filename=')[-1].strip('"').strip("'")`. -/
def cdFilename (cd : Option Str) : Option Str :=
  match cd with
  | none => none
  | some s =>
    if containsSeq fnToken s then
      some (pyStripChar apostChar (pyStripChar quoteChar ((pySplit fnToken s).getLastD [])))
    else none

/-- Lines 129-130: the synthesized name
`url.split('download_file=')[-1].split('&')[0]` wrapped as
`f"dan_carlin_episode_{...}.mp3"`.  Note that this reads the original
`url` argument, not the redirect-resolved response URL. -/
def synthFilename (url : Str) : Str :=
  danEpisodeLit ++ (pySplit ['&'] ((pySplit dlToken url).getLastD [])).headD [] ++ mp3Ext

/-- Lines 112-130: the raw resolved filename before sanitization.
`finalUrl` is `response.url` (after redirects), `url` is the original
argument of `download_episode`.  A Python variable that may hold `None`
is modelled as an `Option`; `not filename or filename == ''` is
`fn = none ∨ fn = some []`. -/
def resolveRawFilename (cd : Option Str) (finalUrl url : Str) : Str :=
  let fn0 := cdFilename cd
  if fn0 = none ∨ fn0 = some [] then
    let finalPath := urlparsePath finalUrl
    let fn1 := if finalPath ≠ [] then some (basename finalPath) else fn0
    if fn1 = none ∨ fn1 = some [] ∨ fn1 = some downloadWord then
      synthFilename url
    else fn1.getD []
  else fn0.getD []

/-- Lines 112-135: the final resolved filename, after sanitization and
the forced `.mp3` extension. -/
def resolvedFilename (cd : Option Str) (finalUrl url : Str) : Str :=
  ensureMp3 (sanitize (resolveRawFilename cd finalUrl url))

/-! ## The item downloader as an effectful procedure -/

/-- Console messages printed by `download_episode` (the progress line of
line 161 is a formatting detail of the streaming branch and is not
traced). -/
inductive Msg
  | errorDownloading
  | skipping (filename : Str)
  | downloading (filename : Str)
  | completed (filename : Str)

/-- Observable effects of one `download_episode` call.  `httpGet` is the
streaming metadata request of line 109 (headers only; `stream=True`
defers the body).  `readChunk` is one `iter_content` body read;
`writeChunk` is one `f.write`. -/
inductive Effect
  | httpGet (url : Str)
  | say (m : Msg)
  | openWrite (path : Str)
  | readChunk (chunk : List Nat)
  | writeChunk (path : Str) (chunk : List Nat)

/-- Does the effect write to the filesystem? -/
def Effect.writesFile : Effect → Bool
  | .openWrite _ => true
  | .writeChunk _ _ => true
  | _ => false

/-- Does the effect read HTTP body bytes? -/
def Effect.readsBody : Effect → Bool
  | .readChunk _ => true
  | _ => false

/-- The response of the streaming GET.  `statusOk = false` makes
`raise_for_status()` raise an `HTTPError` (a `RequestException`).
`body` is the `iter_content` chunk stream; an `error` element is a
network failure raised while iterating.  The `content-length` header
only feeds progress display and is not modelled. -/
structure HttpResponse where
  statusOk : Bool
  finalUrl : Str
  contentDisposition : Option Str
  body : List (Except String (List Nat))

/-- Exceptions that can escape Python code here. -/
inductive PyError
  | requestError (msg : String)
  | fsError (msg : String)

/-- Environment of one `download_episode` call: the outcome of
`session.get` (an `error` is a `RequestException` raised by the request
itself), the set of paths for which `os.path.exists` holds, the outcome
of `open(filepath, 'wb')` (an `error` is an `OSError`), and the outcome
of the `k`-th `f.write` call (an `error` is an `OSError` raised by that
write, line 153). -/
structure FetchEnv where
  getResult : Except String HttpResponse
  existingFiles : List Str
  openResult : Except String Unit
  writeResult : Nat → Except String Unit

/-- How the streaming loop of lines 150-154 ends: the body was consumed,
or `iter_content` raised a `RequestException` mid-stream, or an `f.write`
raised an `OSError`. -/
inductive StreamOutcome
  | done
  | netError (msg : String)
  | fsError (msg : String)

/-- The body-streaming loop of lines 150-154: read chunks in order,
writing each nonempty chunk (`if chunk:`).  `wr k` is the outcome of the
`k`-th write; a failing write raises an `OSError` that aborts the loop,
and a network failure while iterating raises a `RequestException` that
aborts the loop. -/
def streamChunks (wr : Nat → Except String Unit) (path : Str) :
    Nat → List (Except String (List Nat)) → List Effect × StreamOutcome
  | _, [] => ([], .done)
  | _, .error m :: _ => ([], .netError m)
  | k, .ok ch :: rest =>
    if ch ≠ [] then
      match wr k with
      | .error m => ([Effect.readChunk ch, Effect.writeChunk path ch], .fsError m)
      | .ok _ =>
        let r := streamChunks wr path (k + 1) rest
        (Effect.readChunk ch :: Effect.writeChunk path ch :: r.1, r.2)
    else
      let r := streamChunks wr path k rest
      (Effect.readChunk ch :: r.1, r.2)

/-- Lines 105-166, `download_episode(url)`:  returns `.ok ()` when the
call returns normally and `.error e` when an exception propagates to the
caller, together with the trace of effects.  The `try`/`except` of lines
107/165 catches exactly `requests.exceptions.RequestException`; an
`OSError` — from `open` (line 150) or from a body write (line 153) — is
not caught. -/
def download_episode (env : FetchEnv) (outputDir url : Str) :
    Except PyError Unit × List Effect :=
  match env.getResult with
  | .error _ => (.ok (), [.httpGet url, .say .errorDownloading])
  | .ok resp =>
    if resp.statusOk = false then
      (.ok (), [.httpGet url, .say .errorDownloading])
    else
      let filename := resolvedFilename resp.contentDisposition resp.finalUrl url
      let filepath := pathJoin outputDir filename
      if filepath ∈ env.existingFiles then
        (.ok (), [.httpGet url, .say (.skipping filename)])
      else
        match env.openResult with
        | .error m =>
          (.error (.fsError m), [.httpGet url, .say (.downloading filename), .openWrite filepath])
        | .ok _ =>
          let s := streamChunks env.writeResult filepath 0 resp.body
          match s.2 with
          | .fsError m =>
            (.error (.fsError m),
              [.httpGet url, .say (.downloading filename), .openWrite filepath] ++ s.1)
          | .netError _ =>
            (.ok (), [.httpGet url, .say (.downloading filename), .openWrite filepath]
              ++ s.1 ++ [.say .errorDownloading])
          | .done =>
            (.ok (), [.httpGet url, .say (.downloading filename), .openWrite filepath]
              ++ s.1 ++ [.say (.completed filename)])

/-! ## The authenticator (`login`, lines 20-49) -/

/-- One hidden `<input type="hidden">` of the login form:
`(tag.get('name'), tag.get('value'))`; either attribute may be absent
(`None`). -/
abbrev HiddenField := Option Str × Option Str

/-- The page returned by `session.get(login_url)`, reduced to what the
code reads from it: the hidden input fields found by
`soup.find_all('input', type='hidden')`, in document order. -/
structure LoginPage where
  hiddenInputs : List HiddenField

/-- The response of the login POST, reduced to `response.url`. -/
structure PostResponse where
  url : Str

/-- Environment of one `login` call: the outcome of the GET of the login
page and, as a function of the submitted form payload, the outcome of
the POST.  An `error` on either is a raised network exception. -/
structure LoginEnv where
  loginPageResult : Except String LoginPage
  post : List HiddenField → Except String PostResponse

/-- Python dict assignment `d[k] = v` on an insertion-ordered
association list: replace the value at an existing key in place,
otherwise append the new binding. -/
def dictInsert : List HiddenField → Option Str → Option Str → List HiddenField
  | [], k, v => [(k, v)]
  | kv :: d, k, v => if kv.1 = k then (k, v) :: d else kv :: dictInsert d k v

/-- Python dict lookup `d[k]` (as an `Option`). -/
def dictLookup : List HiddenField → Option Str → Option (Option Str)
  | [], _ => none
  | kv :: d, k => if kv.1 = k then some kv.2 else dictLookup d k

/-- Lines 29-35: the fixed part of the login payload. -/
def fixedLoginData (username password : Str) : List HiddenField :=
  [(some "log".toList, some username),
   (some "pwd".toList, some password),
   (some "wp-submit".toList, some "Log In".toList),
   (some "redirect_to".toList, some downloadsUrlLit),
   (some "testcookie".toList, some "1".toList)]

/-- Lines 29-39: the payload actually submitted, after the loop
`for hidden in soup.find_all('input', type='hidden'):
  login_data[hidden.get('name')] = hidden.get('value')`. -/
def buildLoginData (username password : Str) (hiddens : List HiddenField) : List HiddenField :=
  hiddens.foldl (fun d kv => dictInsert d kv.1 kv.2) (fixedLoginData username password)

/-- Lines 20-49, `login(username, password)`: `.ok b` when the function
returns the boolean `b`, `.error m` when a network exception raised by
either request propagates (there is no `try`/`except` in `login`).
Success is `'my-account' in response.url` (line 44), a substring test on
the whole final URL string. -/
def login (env : LoginEnv) (username password : Str) : Except String Bool :=
  match env.loginPageResult with
  | .error m => .error m
  | .ok page =>
    match env.post (buildLoginData username password page.hiddenInputs) with
    | .error m => .error m
    | .ok resp => .ok (containsSeq myAccountLit resp.url)

/-! ## The catalog scraper (`get_download_links`, lines 51-86) -/

/-- The anchor found by `find('a', class_='woocommerce-MyAccount-downloads-file')`,
reduced to its `href` attribute (absent when the attribute is missing). -/
structure Anchor where
  href : Option Str

/-- The `<td class="download-file">` cell, reduced to the anchor search
result inside it. -/
structure DownloadCell where
  fileAnchor : Option Anchor

/-- One `<tr>` of the downloads table, reduced to what the code reads:
whether `row.find('th')` finds a header cell, the text of the
`<td class="download-product">` cell when found, and the
`<td class="download-file">` cell when found. -/
structure Row where
  hasTh : Bool
  titleCell : Option Str
  downloadCell : Option DownloadCell

/-- A catalog entry `{'title': ..., 'url': ...}` (lines 79-82). -/
structure Entry where
  title : Str
  url : Str

/-- The per-row step of the loop of lines 66-83. -/
def rowStep (acc : List Entry) (row : Row) : List Entry :=
  if row.hasTh then acc
  else
    match row.titleCell, row.downloadCell with
    | some t, some dc =>
      match dc.fileAnchor with
      | some a =>
        match a.href with
        | some h => if h ≠ [] then acc ++ [⟨pyStripWS t, h⟩] else acc
        | none => acc
      | none => acc
    | _, _ => acc

/-- Lines 51-86, `get_download_links()`: `none` models a page without the
downloads table (line 60 returns `[]`); otherwise the rows of the table
are scanned in document order.  A row is emitted when the title cell and
download cell are found, the anchor is found, and its `href` is present
and nonempty (Python truthiness of `download_link.get('href')`). -/
def get_download_links (table : Option (List Row)) : List Entry :=
  match table with
  | none => []
  | some rows => rows.foldl rowStep []

/-- Written from the spec (4.2 step 5): one CatalogEntry for a row that
is not a header row and in which the title cell, the download cell, the
anchor and its link target are all present (a present link target being
a nonempty `href`); the entry carries the stripped title text and the
link target. -/
def specRowEntry (row : Row) : Option Entry :=
  if row.hasTh then none
  else
    match row.titleCell, row.downloadCell with
    | some t, some dc =>
      match dc.fileAnchor with
      | some a =>
        match a.href with
        | some h => if h ≠ [] then some ⟨pyStripWS t, h⟩ else none
        | none => none
      | none => none
    | _, _ => none

/-! ## Lemmas about the string primitives -/

theorem pySplitAux_ne_nil (sep : Str) (f : Nat) (s : Str) : pySplitAux sep f s ≠ [] := by
  cases f <;> cases s <;> simp only [pySplitAux] <;> (try split) <;> simp

theorem pySplit_ne_nil (sep s : Str) : pySplit sep s ≠ [] := by
  unfold pySplit
  split
  · simp
  · exact pySplitAux_ne_nil sep s.length s

theorem pySplitAux_fuel {sep : Str} (hsep : sep ≠ []) :
    ∀ f g s, s.length ≤ f → s.length ≤ g → pySplitAux sep f s = pySplitAux sep g s := by
  intro f
  induction f with
  | zero =>
    intro g s hf _
    have hs : s = [] := List.length_eq_zero.mp (Nat.le_zero.mp hf)
    subst hs
    cases g <;> simp [pySplitAux]
  | succ f ih =>
    intro g s hf hg
    cases s with
    | nil => cases g <;> simp [pySplitAux]
    | cons c r =>
      cases g with
      | zero => simp at hg
      | succ g =>
        simp only [List.length_cons, Nat.succ_le_succ_iff] at hf hg
        simp only [pySplitAux]
        cases hp : sep.isPrefixOf (c :: r) with
        | true =>
          rw [if_pos rfl, if_pos rfl]
          have hl : ((c :: r).drop sep.length).length ≤ f := by
            have h1 : 1 ≤ sep.length := List.length_pos.mpr hsep
            simp only [List.length_drop, List.length_cons]
            omega
          have hl2 : ((c :: r).drop sep.length).length ≤ g := by
            have h1 : 1 ≤ sep.length := List.length_pos.mpr hsep
            simp only [List.length_drop, List.length_cons]
            omega
          rw [ih g _ hl hl2]
        | false =>
          rw [if_neg (by exact Bool.false_ne_true), if_neg (by exact Bool.false_ne_true)]
          rw [ih g r hf hg]

theorem containsSeq_iff (sep s : Str) : containsSeq sep s = true ↔ sep <:+: s := by
  induction s with
  | nil => simp [containsSeq, List.isEmpty_iff]
  | cons c r ih =>
    simp [containsSeq, List.infix_cons_iff, ih]

theorem pySplitAux_no_match {sep : Str} (_hsep : sep ≠ []) :
    ∀ s f, s.length ≤ f → containsSeq sep s = false → pySplitAux sep f s = [s] := by
  intro s
  induction s with
  | nil => intro f _ _; cases f <;> simp [pySplitAux]
  | cons c r ih =>
    intro f hf hc
    cases f with
    | zero => simp at hf
    | succ f =>
      simp only [containsSeq, Bool.or_eq_false_iff] at hc
      simp only [List.length_cons, Nat.succ_le_succ_iff] at hf
      simp only [pySplitAux]
      rw [if_neg (by simp [hc.1])]
      rw [ih f hf hc.2]
      simp

theorem pySplit_no_match {sep s : Str} (hsep : sep ≠ []) (hc : containsSeq sep s = false) :
    pySplit sep s = [s] := by
  unfold pySplit
  rw [if_neg hsep]
  exact pySplitAux_no_match hsep s s.length le_rfl hc

theorem pySplit_head_takeWhile (c : Char) (s : Str) :
    (pySplit [c] s).headD [] = s.takeWhile (fun x => x != c) := by
  have key : ∀ f (s : Str), s.length ≤ f →
      (pySplitAux [c] f s).headD [] = s.takeWhile (fun x => x != c) := by
    intro f
    induction f with
    | zero =>
      intro s h
      have hs : s = [] := List.length_eq_zero.mp (Nat.le_zero.mp h)
      subst hs
      simp [pySplitAux]
    | succ f ih =>
      intro s h
      cases s with
      | nil => simp [pySplitAux]
      | cons a r =>
        simp only [List.length_cons, Nat.succ_le_succ_iff] at h
        simp only [pySplitAux]
        cases hp : ([c].isPrefixOf (a :: r)) with
        | true =>
          have hca : c = a := by
            simpa [List.isPrefixOf] using hp
          subst hca
          rw [if_pos rfl]
          simp [List.takeWhile_cons]
        | false =>
          have hca : ¬ c = a := by
            intro hh
            subst hh
            simp [List.isPrefixOf] at hp
          rw [if_neg (by exact Bool.false_ne_true)]
          rw [List.takeWhile_cons]
          have hbne : (a != c) = true := by
            simp only [bne_iff_ne, ne_eq]
            exact fun hh => hca hh.symm
          rw [hbne, if_pos rfl]
          simp only [List.headD_cons]
          rw [ih r h]
  unfold pySplit
  rw [if_neg (by simp)]
  exact key s.length s le_rfl

theorem pySplitAux_append {sep : Str} (hsep : sep ≠ []) (z : Str) :
    ∀ (a : Str) (f : Nat), (a ++ z).length ≤ f →
      (∀ i, i < a.length → sep.isPrefixOf ((a ++ z).drop i) = false) →
      pySplitAux sep f (a ++ z) =
        (a ++ (pySplit sep z).headD []) :: (pySplit sep z).tail := by
  intro a
  induction a with
  | nil =>
    intro f hf _
    simp only [List.nil_append] at hf ⊢
    have h1 : pySplitAux sep f z = pySplit sep z := by
      unfold pySplit
      rw [if_neg hsep]
      exact pySplitAux_fuel hsep f z.length z hf le_rfl
    rw [h1]
    obtain ⟨x, xs, hx⟩ := List.exists_cons_of_ne_nil (pySplit_ne_nil sep z)
    rw [hx]
    simp
  | cons c a' ih =>
    intro f hf hno
    cases f with
    | zero => simp at hf
    | succ f =>
      have h0 : sep.isPrefixOf (c :: (a' ++ z)) = false := by
        have := hno 0 (by simp)
        simpa using this
      simp only [List.cons_append] at hf ⊢
      simp only [List.length_cons, Nat.succ_le_succ_iff] at hf
      simp only [pySplitAux]
      rw [if_neg (by simp [h0])]
      rw [ih f hf (fun i hi => by
        have := hno (i + 1) (by simpa using Nat.succ_lt_succ hi)
        simpa using this)]
      simp

theorem pySplit_boundary {sep : Str} (hsep : sep ≠ []) {t : Str}
    (ht : containsSeq sep t = false) :
    pySplit sep (sep ++ t) = [[], t] := by
  unfold pySplit
  rw [if_neg hsep]
  cases sep with
  | nil => exact absurd rfl hsep
  | cons c sc =>
    have hp : (c :: sc).isPrefixOf (c :: (sc ++ t)) = true := by
      rw [List.isPrefixOf_iff_prefix]
      exact ⟨t, by simp⟩
    have hd : (c :: (sc ++ t)).drop (c :: sc).length = t := by
      rw [← List.cons_append]
      exact List.drop_left _ _
    rw [show (c :: sc) ++ t = c :: (sc ++ t) from rfl]
    rw [show (c :: (sc ++ t)).length = (sc ++ t).length + 1 from rfl]
    simp only [pySplitAux]
    rw [if_pos hp, hd]
    rw [pySplitAux_no_match hsep t _ (by simp) ht]

theorem no_early_match {sep : Str} (hsep : sep ≠ []) {a : Str}
    (h : containsSeq sep (a ++ sep.dropLast) = false) (t : Str) :
    ∀ i, i < a.length → sep.isPrefixOf ((a ++ (sep ++ t)).drop i) = false := by
  intro i hi
  by_contra hcon
  rw [Bool.not_eq_false] at hcon
  rw [List.isPrefixOf_iff_prefix] at hcon
  have hs1 : 1 ≤ sep.length := List.length_pos.mpr hsep
  have hPX : (a ++ sep.dropLast) <+: (a ++ (sep ++ t)) := by
    obtain ⟨u, hu⟩ := List.dropLast_prefix sep
    exact ⟨u ++ t, by rw [List.append_assoc, ← List.append_assoc sep.dropLast u t, hu]⟩
  have hlenP : (a ++ sep.dropLast).length = a.length + (sep.length - 1) := by
    simp [List.length_append, List.length_dropLast]
  have hlen : sep.length + i ≤ (a ++ sep.dropLast).length := by omega
  obtain ⟨w, hw⟩ := hPX
  have hdropP : (a ++ (sep ++ t)).drop i = (a ++ sep.dropLast).drop i ++ w := by
    rw [← hw, List.drop_append_eq_append_drop]
    have hz : i - (a ++ sep.dropLast).length = 0 := by omega
    rw [hz, List.drop_zero]
  rw [hdropP] at hcon
  have hsub : sep <+: (a ++ sep.dropLast).drop i := by
    rw [List.prefix_iff_eq_take] at hcon ⊢
    rw [List.take_append_of_le_length] at hcon
    · exact hcon
    · simp only [List.length_drop]
      omega
  have hinf : sep <:+: (a ++ sep.dropLast) := by
    obtain ⟨u, hu⟩ := hsub
    obtain ⟨v, hv⟩ := List.drop_suffix i (a ++ sep.dropLast)
    exact ⟨v, u, by rw [List.append_assoc, hu, hv]⟩
  rw [← containsSeq_iff] at hinf
  rw [h] at hinf
  exact absurd hinf (by simp)

theorem pySplit_getLast_boundary {sep : Str} (hsep : sep ≠ []) {a t : Str}
    (ha : containsSeq sep (a ++ sep.dropLast) = false)
    (ht : containsSeq sep t = false) :
    (pySplit sep (a ++ sep ++ t)).getLastD [] = t := by
  have h1 : pySplit sep (a ++ (sep ++ t)) =
      (a ++ (pySplit sep (sep ++ t)).headD []) :: (pySplit sep (sep ++ t)).tail := by
    unfold pySplit
    rw [if_neg hsep]
    exact pySplitAux_append hsep (sep ++ t) a _ le_rfl (no_early_match hsep ha t)
  rw [List.append_assoc, h1, pySplit_boundary hsep ht]
  simp [List.getLastD]

/-! ## Lemmas about the sanitizer and the extension step -/

theorem sanitize_append (a b : Str) : sanitize (a ++ b) = sanitize a ++ sanitize b :=
  List.filter_append ..

theorem sanitize_idem (s : Str) : sanitize (sanitize s) = sanitize s := by
  unfold sanitize
  rw [List.filter_filter]
  simp

/-! ## Dictionary lemmas for the login payload -/

/-- The value associated with `k` by the LAST element of `hs` whose key
is `k` (what repeated Python dict assignment leaves behind). -/
def lastAssoc : List HiddenField → Option Str → Option (Option Str)
  | [], _ => none
  | kv :: hs, k =>
    match lastAssoc hs k with
    | some v => some v
    | none => if kv.1 = k then some kv.2 else none

theorem dictLookup_insert (d : List HiddenField) (k v q : Option Str) :
    dictLookup (dictInsert d k v) q = if k = q then some v else dictLookup d q := by
  induction d with
  | nil =>
    simp only [dictInsert, dictLookup]
  | cons kv d ih =>
    simp only [dictInsert]
    by_cases h1 : kv.1 = k
    · rw [if_pos h1]
      simp only [dictLookup]
      by_cases h2 : k = q
      · rw [if_pos h2, if_pos h2]
      · rw [if_neg h2, if_neg h2]
        rw [if_neg (by rw [h1]; exact h2)]
    · rw [if_neg h1]
      simp only [dictLookup]
      by_cases h2 : kv.1 = q
      · have hkq : ¬ k = q := fun hh => h1 (h2.trans hh.symm)
        rw [if_pos h2, if_neg hkq, if_pos h2]
      · rw [if_neg h2, ih]
        by_cases h3 : k = q
        · rw [if_pos h3, if_pos h3]
        · rw [if_neg h3, if_neg h3, if_neg h2]

theorem dictLookup_build (hs : List HiddenField) :
    ∀ (d : List HiddenField) (k : Option Str),
      dictLookup (hs.foldl (fun d kv => dictInsert d kv.1 kv.2) d) k
        = match lastAssoc hs k with
          | some v => some v
          | none => dictLookup d k := by
  induction hs with
  | nil => intro d k; simp [lastAssoc]
  | cons kv hs ih =>
    intro d k
    simp only [List.foldl_cons]
    rw [ih (dictInsert d kv.1 kv.2) k]
    simp only [lastAssoc]
    cases hl : lastAssoc hs k with
    | some v => simp
    | none =>
      simp only []
      rw [dictLookup_insert]
      by_cases h : kv.1 = k
      · simp [h]
      · simp [h]

theorem dictLookup_isSome_of_mem {d : List HiddenField} {kv : HiddenField} (h : kv ∈ d) :
    (dictLookup d kv.1).isSome = true := by
  induction d with
  | nil => simp at h
  | cons e d ih =>
    simp only [dictLookup]
    by_cases he : e.1 = kv.1
    · rw [if_pos he]; rfl
    · rw [if_neg he]
      rcases List.mem_cons.mp h with rfl | h2
      · exact absurd rfl he
      · exact ih h2

/-! ## Scraper lemma -/

theorem rowStep_eq (acc : List Entry) (row : Row) :
    rowStep acc row = acc ++ (specRowEntry row).toList := by
  obtain ⟨th, tc, dcl⟩ := row
  unfold rowStep specRowEntry
  by_cases h : th
  · rw [if_pos h, if_pos h]; simp
  · rw [if_neg h, if_neg h]
    cases tc with
    | none => simp
    | some t =>
      cases dcl with
      | none => simp
      | some dc =>
        obtain ⟨anc⟩ := dc
        cases anc with
        | none => simp
        | some an =>
          obtain ⟨hr⟩ := an
          cases hr with
          | none => simp
          | some h2 =>
            by_cases hh : h2 = []
            · simp [hh]
            · simp [hh]

/-! ## Claim theorems -/

/-- C6: filename sanitization keeps only alphanumerics, space, hyphen,
underscore and period, drops every other character, and is idempotent. -/
theorem c6_sanitize_idempotent :
    ∀ s : Str,
      ((sanitize s).all keepChar = true)
      ∧ (∀ c, c ∈ s → keepChar c = false → c ∉ sanitize s)
      ∧ sanitize (sanitize s) = sanitize s := by
  intro s
  refine ⟨?_, ?_, sanitize_idem s⟩
  · rw [List.all_eq_true]
    intro c hc
    exact (List.mem_filter.mp hc).2
  · intro c _ hk hmem
    have h2 := (List.mem_filter.mp hmem).2
    rw [hk] at h2
    exact absurd h2 (by simp)

theorem c6_sanitize_idempotent_witness :
    ('/' ∉ sanitize "ep/1.mp3".toList)
    ∧ sanitize (sanitize "ep/1.mp3".toList) = sanitize "ep/1.mp3".toList :=
  ⟨(c6_sanitize_idempotent "ep/1.mp3".toList).2.1 '/' (by decide) (by decide),
   (c6_sanitize_idempotent "ep/1.mp3".toList).2.2⟩

/-- C7: for a sanitized filename not already ending in `.mp3`, the
extension step appends `.mp3` exactly once (a suffix, not a
replacement), the result ends with exactly one `.mp3` suffix, and
re-applying the step leaves the name unchanged. -/
theorem c7_mp3_extension :
    ∀ s : Str, mp3Ext.isSuffixOf s = false →
      ensureMp3 s = s ++ mp3Ext
      ∧ mp3Ext <:+ ensureMp3 s
      ∧ ¬ ((mp3Ext ++ mp3Ext) <:+ ensureMp3 s)
      ∧ ensureMp3 (ensureMp3 s) = ensureMp3 s := by
  intro s h
  have h1 : ensureMp3 s = s ++ mp3Ext := by
    unfold ensureMp3
    rw [if_neg (by simp [h])]
  refine ⟨h1, ?_, ?_, ?_⟩
  · rw [h1]; exact List.suffix_append s mp3Ext
  · rw [h1]
    intro hc
    obtain ⟨u, hu⟩ := hc
    have h2 : (u ++ mp3Ext) ++ mp3Ext = s ++ mp3Ext := by
      rw [List.append_assoc]; exact hu
    have h3 : u ++ mp3Ext = s := List.append_cancel_right h2
    have h4 : mp3Ext <:+ s := ⟨u, h3⟩
    rw [← List.isSuffixOf_iff_suffix, h] at h4
    exact absurd h4 (by simp)
  · rw [h1]
    unfold ensureMp3
    rw [if_pos (by rw [List.isSuffixOf_iff_suffix]; exact List.suffix_append s mp3Ext)]

theorem c7_mp3_extension_witness :
    ensureMp3 "Episode 300".toList = "Episode 300".toList ++ mp3Ext :=
  (c7_mp3_extension "Episode 300".toList (by decide)).1

/-- C8: for every hidden-field set, the submitted login payload contains
every fixed field key, every hidden field is present with the value of
its last occurrence (last writer wins, also over fixed fields), and a
fixed field not shadowed by any hidden field keeps its fixed value. -/
theorem c8_login_payload :
    ∀ (u p : Str) (hs : List HiddenField),
      (∀ kv ∈ fixedLoginData u p, (dictLookup (buildLoginData u p hs) kv.1).isSome = true)
      ∧ (∀ k v, lastAssoc hs k = some v → dictLookup (buildLoginData u p hs) k = some v)
      ∧ (∀ kv ∈ fixedLoginData u p, lastAssoc hs kv.1 = none →
          dictLookup (buildLoginData u p hs) kv.1 = some kv.2) := by
  intro u p hs
  have key : ∀ k, dictLookup (buildLoginData u p hs) k
      = match lastAssoc hs k with
        | some v => some v
        | none => dictLookup (fixedLoginData u p) k :=
    fun k => dictLookup_build hs (fixedLoginData u p) k
  refine ⟨?_, ?_, ?_⟩
  · intro kv hkv
    rw [key kv.1]
    cases hl : lastAssoc hs kv.1 with
    | some v => rfl
    | none =>
      simp only []
      exact dictLookup_isSome_of_mem hkv
  · intro k v hl
    rw [key k, hl]
  · intro kv hkv hl
    rw [key kv.1, hl]
    simp only [fixedLoginData, List.mem_cons, List.not_mem_nil, or_false] at hkv
    rcases hkv with rfl | rfl | rfl | rfl | rfl
    · simp only [fixedLoginData, dictLookup]
      simp
    · simp only [fixedLoginData, dictLookup]
      rw [if_neg (by decide)]
      simp
    · simp only [fixedLoginData, dictLookup]
      rw [if_neg (by decide), if_neg (by decide)]
      simp
    · simp only [fixedLoginData, dictLookup]
      rw [if_neg (by decide), if_neg (by decide), if_neg (by decide)]
      simp
    · simp only [fixedLoginData, dictLookup]
      rw [if_neg (by decide), if_neg (by decide), if_neg (by decide), if_neg (by decide)]
      simp

theorem c8_login_payload_witness :
    dictLookup (buildLoginData "u".toList "p".toList
        [(some "log".toList, some "HACK".toList), (some "nonce7".toList, some "z".toList)])
      (some "log".toList) = some (some "HACK".toList)
    ∧ dictLookup (buildLoginData "u".toList "p".toList
        [(some "log".toList, some "HACK".toList), (some "nonce7".toList, some "z".toList)])
      (some "pwd".toList) = some (some "p".toList) :=
  ⟨(c8_login_payload "u".toList "p".toList
      [(some "log".toList, some "HACK".toList), (some "nonce7".toList, some "z".toList)]).2.1
      (some "log".toList) (some "HACK".toList) rfl,
   (c8_login_payload "u".toList "p".toList
      [(some "log".toList, some "HACK".toList), (some "nonce7".toList, some "z".toList)]).2.2
      (some "pwd".toList, some "p".toList) (by decide) rfl⟩

/-- C9: `get_download_links` returns exactly one entry per table row in
which title cell, download cell, anchor and link target are all present,
in row order; rows missing any of these and header rows are skipped, and
a table with only a header row yields the empty sequence. -/
theorem c9_download_links :
    (∀ rows : List Row, get_download_links (some rows) = rows.filterMap specRowEntry)
    ∧ get_download_links none = []
    ∧ (∀ r : Row, r.hasTh = true → get_download_links (some [r]) = []) := by
  have main : ∀ (rows : List Row) (acc : List Entry),
      rows.foldl rowStep acc = acc ++ rows.filterMap specRowEntry := by
    intro rows
    induction rows with
    | nil => intro acc; simp
    | cons r rows ih =>
      intro acc
      simp only [List.foldl_cons, List.filterMap_cons]
      rw [rowStep_eq]
      cases h : specRowEntry r with
      | none => rw [ih]; simp
      | some e => rw [ih]; simp
  refine ⟨fun rows => ?_, rfl, fun r h => ?_⟩
  · simp [get_download_links, main rows []]
  · simp [get_download_links, main [r] [], specRowEntry, h]

theorem c9_download_links_witness :
    get_download_links (some [⟨true, some "Header".toList, none⟩]) = [] :=
  c9_download_links.2.2 ⟨true, some "Header".toList, none⟩ rfl

/-- C1 counterexample: the two-step priority of the claim fails on the
code in two concrete situations.  First, for the header
`content-disposition: attachment; filename=""` the quote-stripped header
value is the empty string, yet the resolved raw filename is the basename
`ep1.mp3` of the final URL, not that value.  Second, with no
content-disposition header and a final URL whose path basename is
literally `download`, the resolved raw filename is the synthesized
`dan_carlin_episode_77.mp3`, not that basename. -/
theorem c1_counterexample :
    (containsSeq fnToken "attachment; filename=\"\"".toList = true
      ∧ pyStripChar apostChar (pyStripChar quoteChar
          ((pySplit fnToken "attachment; filename=\"\"".toList).getLastD [])) = []
      ∧ resolveRawFilename (some "attachment; filename=\"\"".toList)
          "https://h/files/ep1.mp3".toList "u".toList = "ep1.mp3".toList
      ∧ "ep1.mp3".toList ≠ ([] : Str))
    ∧ (basename (urlparsePath "https://h/downloads/download".toList) = downloadWord
      ∧ resolveRawFilename none "https://h/downloads/download".toList
          "https://h/?download_file=77".toList = "dan_carlin_episode_77.mp3".toList
      ∧ "dan_carlin_episode_77.mp3".toList ≠ downloadWord) := by
  decide

/-- C1 (amended): filename resolution priority.  (a) When the response
carries a content-disposition header with a `filename=` token and the
quote-stripped value is nonempty, that value is the resolved raw
filename, whatever the final URL and the original URL are.  (b) When the
header yields no filename (header absent, no token, or empty stripped
value), the basename of the final URL path is used, provided it is
nonempty and not literally `download`.  (c) For the header
`content-disposition: attachment; filename="Episode 300.mp3"` the fully
resolved filename is exactly `Episode 300.mp3`. -/
theorem c1_filename_resolution :
    (∀ (cd finalUrl url v : Str),
        containsSeq fnToken cd = true →
        pyStripChar apostChar (pyStripChar quoteChar ((pySplit fnToken cd).getLastD [])) = v →
        v ≠ [] →
        resolveRawFilename (some cd) finalUrl url = v)
    ∧ (∀ (cd : Option Str) (finalUrl url : Str),
        (cdFilename cd = none ∨ cdFilename cd = some []) →
        basename (urlparsePath finalUrl) ≠ [] →
        basename (urlparsePath finalUrl) ≠ downloadWord →
        resolveRawFilename cd finalUrl url = basename (urlparsePath finalUrl))
    ∧ (∀ finalUrl url : Str,
        resolvedFilename (some "attachment; filename=\"Episode 300.mp3\"".toList) finalUrl url
          = "Episode 300.mp3".toList) := by
  have parta : ∀ (cd finalUrl url v : Str),
      containsSeq fnToken cd = true →
      pyStripChar apostChar (pyStripChar quoteChar ((pySplit fnToken cd).getLastD [])) = v →
      v ≠ [] →
      resolveRawFilename (some cd) finalUrl url = v := by
    intro cd finalUrl url v htok hstrip hne
    have h0 : cdFilename (some cd) = some v := by
      simp only [cdFilename]
      rw [if_pos htok, hstrip]
    simp only [resolveRawFilename, h0]
    rw [if_neg (by simp [hne])]
    simp
  have partb : ∀ (cd : Option Str) (finalUrl url : Str),
      (cdFilename cd = none ∨ cdFilename cd = some []) →
      basename (urlparsePath finalUrl) ≠ [] →
      basename (urlparsePath finalUrl) ≠ downloadWord →
      resolveRawFilename cd finalUrl url = basename (urlparsePath finalUrl) := by
    intro cd finalUrl url h0 hne hnd
    have hfp : urlparsePath finalUrl ≠ [] := by
      intro hh
      apply hne
      rw [hh]
      rfl
    simp only [resolveRawFilename]
    rw [if_pos h0, if_pos hfp]
    rw [if_neg (by simp [hne, hnd])]
    simp
  refine ⟨parta, partb, fun finalUrl url => ?_⟩
  unfold resolvedFilename
  rw [parta _ finalUrl url "Episode 300.mp3".toList (by decide) (by decide) (by decide)]
  decide

theorem c1_filename_resolution_witness :
    resolveRawFilename (some "attachment; filename=\"ep2.mp3\"".toList)
      "https://h/a/b".toList "u".toList = "ep2.mp3".toList :=
  c1_filename_resolution.1 "attachment; filename=\"ep2.mp3\"".toList "https://h/a/b".toList
    "u".toList "ep2.mp3".toList (by decide) (by decide) (by decide)

/-- C4: with no content-disposition header, a final URL whose path is
`/downloads/download` (basename `download`), and an original URL whose
query carries `download_file=4821` (its only `download_file=` occurrence,
value ended by `&`), the resolved filename is exactly
`dan_carlin_episode_4821.mp3`. -/
theorem c4_synthesized_filename :
    ∀ (a b finalUrl : Str),
      containsSeq dlToken (a ++ dlToken.dropLast) = false →
      containsSeq dlToken ("4821&".toList ++ b) = false →
      urlparsePath finalUrl = "/downloads/download".toList →
      resolvedFilename none finalUrl (a ++ dlToken ++ ("4821&".toList ++ b))
        = "dan_carlin_episode_4821.mp3".toList := by
  intro a b finalUrl ha hb hf
  have hsep : dlToken ≠ [] := by decide
  have hlast : (pySplit dlToken (a ++ dlToken ++ ("4821&".toList ++ b))).getLastD []
      = "4821&".toList ++ b := pySplit_getLast_boundary hsep ha hb
  have hsynth : synthFilename (a ++ dlToken ++ ("4821&".toList ++ b))
      = "dan_carlin_episode_4821.mp3".toList := by
    unfold synthFilename
    rw [hlast, pySplit_head_takeWhile]
    rw [show "4821&".toList ++ b = '4' :: '8' :: '2' :: '1' :: '&' :: b from rfl]
    rw [List.takeWhile_cons_of_pos (by decide), List.takeWhile_cons_of_pos (by decide),
      List.takeWhile_cons_of_pos (by decide), List.takeWhile_cons_of_pos (by decide),
      List.takeWhile_cons_of_neg (by decide)]
    decide
  have hraw : resolveRawFilename none finalUrl (a ++ dlToken ++ ("4821&".toList ++ b))
      = synthFilename (a ++ dlToken ++ ("4821&".toList ++ b)) := by
    simp only [resolveRawFilename, cdFilename]
    rw [if_pos (Or.inl trivial), hf]
    rw [if_pos (by decide)]
  unfold resolvedFilename
  rw [hraw, hsynth]
  decide

theorem c4_synthesized_filename_witness :
    resolvedFilename none "https://www.dancarlin.com/downloads/download?key=9".toList
      ("https://www.dancarlin.com/?".toList ++ dlToken ++ ("4821&".toList ++ "order=wc_1".toList))
      = "dan_carlin_episode_4821.mp3".toList :=
  c4_synthesized_filename "https://www.dancarlin.com/?".toList "order=wc_1".toList
    "https://www.dancarlin.com/downloads/download?key=9".toList
    (by decide) (by decide) (by decide)

/-- C10: when fallback (c) is reached (no content-disposition filename,
final-URL basename empty or `download`) and the original URL contains no
`download_file=` substring, the synthesized name embeds the whole
original URL, truncated at the first `&` and sanitized, between the
fixed literal and the `.mp3` suffix.  The conclusion depends only on the
original `url` argument, not on the redirect-resolved final URL. -/
theorem c10_fallback_original_url :
    ∀ (finalUrl url : Str),
      containsSeq dlToken url = false →
      (basename (urlparsePath finalUrl) = [] ∨ basename (urlparsePath finalUrl) = downloadWord) →
      resolvedFilename none finalUrl url
        = danEpisodeLit ++ sanitize (url.takeWhile (fun c => c != '&')) ++ mp3Ext := by
  intro finalUrl url hnd hb
  have hsep : dlToken ≠ [] := by decide
  have hsynth : synthFilename url
      = danEpisodeLit ++ url.takeWhile (fun c => c != '&') ++ mp3Ext := by
    unfold synthFilename
    rw [pySplit_no_match hsep hnd]
    rw [show ([url] : List Str).getLastD [] = url from rfl]
    rw [pySplit_head_takeWhile]
  have hraw : resolveRawFilename none finalUrl url = synthFilename url := by
    simp only [resolveRawFilename, cdFilename]
    rw [if_pos (Or.inl trivial)]
    by_cases hf : urlparsePath finalUrl = []
    · have hin : (if urlparsePath finalUrl ≠ [] then some (basename (urlparsePath finalUrl))
          else (none : Option Str)) = none := by
        rw [if_neg (fun hh => hh hf)]
      rw [hin]
      rw [if_pos (Or.inl rfl)]
    · have hin : (if urlparsePath finalUrl ≠ [] then some (basename (urlparsePath finalUrl))
          else (none : Option Str)) = some (basename (urlparsePath finalUrl)) := by
        rw [if_pos hf]
      rw [hin]
      rcases hb with hb | hb <;> rw [hb] <;> simp
  unfold resolvedFilename
  rw [hraw, hsynth, sanitize_append, sanitize_append]
  rw [show sanitize danEpisodeLit = danEpisodeLit from by decide]
  rw [show sanitize mp3Ext = mp3Ext from by decide]
  unfold ensureMp3
  rw [if_pos (by rw [List.isSuffixOf_iff_suffix]; exact List.suffix_append _ _)]

/-- If every write succeeds, the streaming loop never ends in a
filesystem error. -/
theorem streamChunks_no_fsError {wr : Nat → Except String Unit}
    (hwr : ∀ j, wr j = .ok ()) (path : Str) :
    ∀ (body : List (Except String (List Nat))) (k : Nat) (m : String),
      (streamChunks wr path k body).2 ≠ StreamOutcome.fsError m := by
  intro body
  induction body with
  | nil => intro k m; simp [streamChunks]
  | cons chunk rest ih =>
    intro k m
    cases chunk with
    | error m2 => simp [streamChunks]
    | ok ch =>
      simp only [streamChunks]
      by_cases hch : ch ≠ []
      · rw [if_pos hch, hwr k]
        exact ih (k + 1) m
      · rw [if_neg hch]
        exact ih k m

/-- C2 counterexample: filesystem errors are not caught.  With a
successful metadata request and a fresh target file, an `open` that
raises `OSError` (permission denied) propagates the exception to the
caller instead of returning normally; and with a successful `open`, an
`OSError` raised by the first body write (disk full) propagates too. -/
theorem c2_counterexample :
    (download_episode
        ⟨.ok ⟨true, "https://h/f/ep.mp3".toList, none, []⟩, [], .error "Permission denied",
          fun _ => .ok ()⟩
        outputDirLit "u".toList).1
      = .error (.fsError "Permission denied")
    ∧ (download_episode
        ⟨.ok ⟨true, "https://h/f/ep.mp3".toList, none, [.ok [1, 2, 3]]⟩, [], .ok (),
          fun _ => .error "No space left on device"⟩
        outputDirLit "u".toList).1
      = .error (.fsError "No space left on device") := by
  exact ⟨rfl, rfl⟩

/-- C2 (amended): `download_episode` catches and reports exactly the
`RequestException` family — a network error raised by the request itself,
an HTTP error status raised by `raise_for_status`, or a network error
while streaming the body — and returns normally in all those cases;
a filesystem error, whether from opening the output file or from a body
write, is not caught and propagates. -/
theorem c2_error_containment :
    ∀ (env : FetchEnv) (outputDir url : Str),
      (env.openResult = .ok () → (∀ k, env.writeResult k = .ok ()) →
        (download_episode env outputDir url).1 = .ok ())
      ∧ (∀ m, env.getResult = .error m →
          download_episode env outputDir url = (.ok (), [.httpGet url, .say .errorDownloading])) := by
  intro env dir url
  constructor
  · intro hopen hwr
    cases hget : env.getResult with
    | error m => simp [download_episode, hget]
    | ok resp =>
      simp only [download_episode, hget]
      split
      · rfl
      · split
        · rfl
        · rw [hopen]
          split
          · simp_all
          · split
            · rename_i hfs
              exact absurd hfs (streamChunks_no_fsError hwr _ resp.body 0 _)
            · rfl
            · rfl
  · intro m hget
    simp [download_episode, hget]

theorem c2_error_containment_witness :
    (download_episode ⟨.error "timeout", [], .ok (), fun _ => .ok ()⟩
        outputDirLit "u".toList).1 = .ok () :=
  (c2_error_containment ⟨.error "timeout", [], .ok (), fun _ => .ok ()⟩
      outputDirLit "u".toList).1 rfl (fun _ => rfl)

/-- C5: when the resolved target path already exists, `download_episode`
returns normally with only the metadata request and the skip message in
its trace: no file is opened or written and no body chunk is read, so
the pre-existing file is untouched. -/
theorem c5_skip_existing :
    ∀ (env : FetchEnv) (outputDir url : Str) (resp : HttpResponse),
      env.getResult = .ok resp →
      resp.statusOk = true →
      pathJoin outputDir (resolvedFilename resp.contentDisposition resp.finalUrl url)
          ∈ env.existingFiles →
      download_episode env outputDir url
          = (.ok (), [.httpGet url,
              .say (.skipping (resolvedFilename resp.contentDisposition resp.finalUrl url))])
        ∧ ((download_episode env outputDir url).2.all
            (fun e => !e.writesFile && !e.readsBody)) = true := by
  intro env dir url resp hget hok hmem
  have h1 : download_episode env dir url
      = (.ok (), [.httpGet url,
          .say (.skipping (resolvedFilename resp.contentDisposition resp.finalUrl url))]) := by
    simp only [download_episode, hget]
    rw [if_neg (by simp [hok]), if_pos hmem]
  exact ⟨h1, by rw [h1]; simp [Effect.writesFile, Effect.readsBody]⟩

theorem c5_skip_existing_witness :
    download_episode
        ⟨.ok ⟨true, "https://h/f/ep.mp3".toList, none, []⟩,
          [pathJoin outputDirLit "ep.mp3".toList], .ok (), fun _ => .ok ()⟩
        outputDirLit "u".toList
      = (.ok (), [.httpGet "u".toList,
          .say (.skipping (resolvedFilename none "https://h/f/ep.mp3".toList "u".toList))]) :=
  (c5_skip_existing
      ⟨.ok ⟨true, "https://h/f/ep.mp3".toList, none, []⟩,
        [pathJoin outputDirLit "ep.mp3".toList], .ok (), fun _ => .ok ()⟩
      outputDirLit "u".toList ⟨true, "https://h/f/ep.mp3".toList, none, []⟩
      rfl rfl (by decide)).1

/-- C3 counterexample: the success test of `login` is a substring test on
the whole final URL, not on its path — a final URL carrying `my-account`
only in its query string makes `login` return `true` although the path
is just `/` — and a network error raised while fetching the login page
propagates instead of producing `false`. -/
theorem c3_counterexample :
    (login ⟨.ok ⟨[]⟩,
        fun _ => .ok ⟨"https://www.dancarlin.com/?redirect_to=my-account".toList⟩⟩
        "u".toList "p".toList = .ok true
      ∧ containsSeq myAccountLit
          (urlparsePath "https://www.dancarlin.com/?redirect_to=my-account".toList) = false)
    ∧ login ⟨.error "connection reset", fun _ => .ok ⟨downloadsUrlLit⟩⟩
        "u".toList "p".toList = .error "connection reset" :=
  ⟨⟨rfl, by decide⟩, rfl⟩

/-- C3 (amended): when both requests succeed, `login` returns the truth
of `'my-account'` occurring as a substring anywhere in the final response
URL string (so wrong credentials or a changed site yield `false`), and a
network exception raised by either the login-page GET or the POST
propagates to the caller instead of returning `false`. -/
theorem c3_login_outcome :
    ∀ (env : LoginEnv) (u p : Str),
      (∀ m, env.loginPageResult = .error m → login env u p = .error m)
      ∧ (∀ page m, env.loginPageResult = .ok page →
          env.post (buildLoginData u p page.hiddenInputs) = .error m →
          login env u p = .error m)
      ∧ (login env u p = .ok true ↔
          ∃ page resp, env.loginPageResult = .ok page
            ∧ env.post (buildLoginData u p page.hiddenInputs) = .ok resp
            ∧ containsSeq myAccountLit resp.url = true) := by
  intro env u p
  refine ⟨?_, ?_, ?_⟩
  · intro m h
    simp [login, h]
  · intro page m h1 h2
    simp [login, h1, h2]
  · constructor
    · intro h
      cases hp : env.loginPageResult with
      | error m => simp [login, hp] at h
      | ok page =>
        cases hq : env.post (buildLoginData u p page.hiddenInputs) with
        | error m => simp [login, hp, hq] at h
        | ok resp =>
          refine ⟨page, resp, rfl, hq, ?_⟩
          simpa [login, hp, hq] using h
    · rintro ⟨page, resp, h1, h2, h3⟩
      simp [login, h1, h2, h3]

theorem c3_login_outcome_witness :
    login ⟨.error "dns failure", fun _ => .ok ⟨downloadsUrlLit⟩⟩ "u".toList "p".toList
      = .error "dns failure" :=
  (c3_login_outcome ⟨.error "dns failure", fun _ => .ok ⟨downloadsUrlLit⟩⟩
      "u".toList "p".toList).1 "dns failure" rfl

theorem c10_fallback_original_url_witness :
    resolvedFilename none "https://h/x/download".toList "https://h/get?x=1&y=2".toList
      = danEpisodeLit
        ++ sanitize ("https://h/get?x=1&y=2".toList.takeWhile (fun c => c != '&')) ++ mp3Ext :=
  c10_fallback_original_url "https://h/x/download".toList "https://h/get?x=1&y=2".toList
    (by decide) (Or.inr (by decide))

end DC
